import Mathlib

/-!
Shallow embedding of the RobustMQ placement-center core: the MQTT metadata
cache (`placement-center/src/mqtt/cache.rs`), the message-expiration sweeper
(`placement-center/src/controller/mqtt/message_expire.rs`), and the
share-subscription leader gRPC handler
(`placement-center/src/server/grpc/service_mqtt.rs`).

Serialization is abstracted: a stored byte string is modelled by `WireVal α`,
which is either a well-formed encoding of an `α` or malformed bytes; decoding
is the evident projection.  The system clock `now_second()` is passed as an
explicit `now : Nat` argument.  Machine integers (`u32`, `u64`) are modelled
as `Nat`; every arithmetic operation performed by the embedded code
(additions of epoch seconds) stays far below 2^64, so no wrap-around modelling
is needed.
-/

/-- Result of deserializing a byte string expected to encode an `α`:
either the decoded value or malformed bytes (serde decode failure). -/
inductive WireVal (α : Type) where
  | ok (v : α)
  | malformed
deriving DecidableEq

/-- Persistence envelope `StorageDataWrap { data: Vec<u8>, create_time: u64 }`.
The `data` field holds the (abstracted) payload bytes. -/
structure StorageDataWrap (α : Type) where
  data : WireVal α
  create_time : Nat
deriving DecidableEq

/-- `MqttUser { username, password, is_superuser }` (metadata_struct). -/
structure MqttUser where
  username : String
  password : String
  is_superuser : Bool
deriving DecidableEq

/-- `MqttTopic` as cached by the placement center
(`topic_id`, `topic_name`, optional retained message and its expiry). -/
structure MqttTopic where
  topic_id : String
  topic_name : String
  retain_message : Option (List Nat)
  retain_message_expired_at : Option Nat
deriving DecidableEq

/-- `MQTTTopic` as decoded by the expiration sweeper; same shape as the
cached topic record. -/
structure MQTTTopic where
  topic_id : String
  topic_name : String
  retain_message : Option (List Nat)
  retain_message_expired_at : Option Nat
deriving DecidableEq

/-- `MQTTConnector`; only `connector_name` and its config matter here. -/
structure MQTTConnector where
  connector_name : String
  config : String
deriving DecidableEq

/-- Modelled from the spec: the in-memory `ExpireLastWill` record
`{cluster_name, client_id, delay_until_epoch_seconds}` declared in
`controller/session_expire.rs`, which is not part of the provided sources. -/
structure ExpireLastWill where
  cluster_name : String
  client_id : String
  delay_until_epoch_seconds : Nat
deriving DecidableEq

/-- `LastWillProperties`; the sweeper reads only `message_expiry_interval`. -/
structure LastWillProperties where
  message_expiry_interval : Option Nat
deriving DecidableEq

/-- `LastWillData { client_id, last_will, last_will_properties }`. -/
structure LastWillData where
  client_id : String
  last_will : Option (List Nat)
  last_will_properties : Option LastWillProperties
deriving DecidableEq

/-- A registered broker node record, as read from the cluster cache:
`node_inner_addr` and `extend` are the fields the handler copies. -/
structure BrokerNode where
  node_inner_addr : String
  extend : String
deriving DecidableEq

/-- `GetShareSubLeaderReply { broker_id, broker_addr, extend_info }`;
prost `default()` is `broker_id = 0` with empty strings. -/
structure GetShareSubLeaderReply where
  broker_id : Nat
  broker_addr : String
  extend_info : String
deriving DecidableEq

/-! ### Association-list model of `DashMap`

A `DashMap<String, V>` is modelled as an association list with at most one
live binding per key observable through `alookup` (which returns the first
binding, exactly as a map lookup does).  `innerInsert` is `DashMap::insert`
(replace or add), `innerRemove` is `DashMap::remove`. -/

/-- Lookup of the first binding of a key, the observation of `DashMap::get`. -/
def alookup {α : Type} (k : String) : List (String × α) → Option α
  | [] => none
  | (a, b) :: t => if a = k then some b else alookup k t

/-- `DashMap::insert`: replace the binding of `k` if present, else add it. -/
def innerInsert {α : Type} (k : String) (v : α) : List (String × α) → List (String × α)
  | [] => [(k, v)]
  | (a, b) :: t => if a = k then (k, v) :: t else (a, b) :: innerInsert k v t

/-- `DashMap::remove`: drop every binding of `k`. -/
def innerRemove {α : Type} (k : String) : List (String × α) → List (String × α)
  | [] => []
  | (a, b) :: t => if a = k then innerRemove k t else (a, b) :: innerRemove k t

/-- Replace the value of the first binding of `cluster` (in-place mutation of
the inner map obtained through `get_mut`). -/
def outerSet {α : Type} (cluster : String) (inner : List (String × α)) :
    List (String × List (String × α)) → List (String × List (String × α))
  | [] => []
  | (c, i) :: t =>
    if c = cluster then (c, inner) :: t else (c, i) :: outerSet cluster inner t

/-- The two-level `add` pattern of `cache.rs`: if the cluster has an inner
map, insert into it; otherwise create a fresh inner map holding the entry. -/
def outerAdd {α : Type} (cluster k : String) (v : α)
    (m : List (String × List (String × α))) : List (String × List (String × α)) :=
  match alookup cluster m with
  | some inner => outerSet cluster (innerInsert k v inner) m
  | none => (cluster, [(k, v)]) :: m

/-- The two-level `remove` pattern of `cache.rs`: if the cluster has an inner
map, remove the key from it; otherwise do nothing. -/
def outerRemove {α : Type} (cluster k : String)
    (m : List (String × List (String × α))) : List (String × List (String × α)) :=
  match alookup cluster m with
  | some inner => outerSet cluster (innerRemove k inner) m
  | none => m

/-- Modelled from the spec: `is_send_last_will` (declared in
`placement-center/src/mqtt/mod.rs`, not among the provided sources) holds
when `now ≥ entry.delay_until_epoch_seconds`. -/
def is_send_last_will (now : Nat) (e : ExpireLastWill) : Bool :=
  decide (e.delay_until_epoch_seconds ≤ now)

/-- The placement center's `MqttCacheManager`: four per-cluster maps. -/
structure MqttCacheManager where
  topic_list : List (String × List (String × MqttTopic))
  user_list : List (String × List (String × MqttUser))
  expire_last_wills : List (String × List (String × ExpireLastWill))
  connector_list : List (String × List (String × MQTTConnector))
deriving DecidableEq

/-- `MqttCacheManager::new()`: all four maps empty. -/
def MqttCacheManager.new : MqttCacheManager :=
  { topic_list := [], user_list := [], expire_last_wills := [], connector_list := [] }

/-- `add_topic`: upsert the topic keyed by its `topic_name` under the cluster. -/
def MqttCacheManager.add_topic (c : MqttCacheManager) (cluster_name : String)
    (topic : MqttTopic) : MqttCacheManager :=
  { c with topic_list := (outerAdd cluster_name topic.topic_name topic c.topic_list) }

/-- `remove_topic`: remove the name from the cluster's topic map. -/
def MqttCacheManager.remove_topic (c : MqttCacheManager) (cluster_name topic_name : String) :
    MqttCacheManager :=
  { c with topic_list := outerRemove cluster_name topic_name c.topic_list }

/-- `add_user`: upsert the user keyed by `username` under the cluster. -/
def MqttCacheManager.add_user (c : MqttCacheManager) (cluster_name : String)
    (user : MqttUser) : MqttCacheManager :=
  { c with user_list := outerAdd cluster_name user.username user c.user_list }

/-- `remove_user` as written in the source: it looks up the cluster in
`topic_list` (not `user_list`) and removes `user_name` from that map. -/
def MqttCacheManager.remove_user (c : MqttCacheManager) (cluster_name user_name : String) :
    MqttCacheManager :=
  { c with topic_list := outerRemove cluster_name user_name c.topic_list }

/-- `add_expire_last_will`: upsert keyed by `client_id` under `cluster_name`. -/
def MqttCacheManager.add_expire_last_will (c : MqttCacheManager)
    (expire_last_will : ExpireLastWill) : MqttCacheManager :=
  { c with expire_last_wills :=
      (outerAdd expire_last_will.cluster_name expire_last_will.client_id
        expire_last_will c.expire_last_wills) }

/-- `remove_expire_last_will`. -/
def MqttCacheManager.remove_expire_last_will (c : MqttCacheManager)
    (cluster_name client_id : String) : MqttCacheManager :=
  { c with expire_last_wills := outerRemove cluster_name client_id c.expire_last_wills }

/-- `get_expire_last_wills`: collect the cluster's entries passing
`is_send_last_will`; `now` is the value of `now_second()` at call time. -/
def MqttCacheManager.get_expire_last_wills (c : MqttCacheManager) (now : Nat)
    (cluster_name : String) : List ExpireLastWill :=
  match alookup cluster_name c.expire_last_wills with
  | some list => (list.filter (fun raw => is_send_last_will now raw.2)).map (fun raw => raw.2)
  | none => []

/-- `add_connector`: upsert keyed by `connector_name` under the cluster. -/
def MqttCacheManager.add_connector (c : MqttCacheManager) (cluster_name : String)
    (connector : MQTTConnector) : MqttCacheManager :=
  { c with connector_list :=
      (outerAdd cluster_name connector.connector_name connector c.connector_list) }

/-- `remove_connector` as written in the source: like `remove_user` it
operates on `topic_list`, not `connector_list`. -/
def MqttCacheManager.remove_connector (c : MqttCacheManager)
    (cluster_name connector_name : String) : MqttCacheManager :=
  { c with topic_list := outerRemove cluster_name connector_name c.topic_list }

/-- Observation: the cached topic stored under `(cluster, name)`. -/
def topicGet (c : MqttCacheManager) (cluster name : String) : Option MqttTopic :=
  match alookup cluster c.topic_list with
  | some inner => alookup name inner
  | none => none

/-- Observation: the cached user stored under `(cluster, name)`. -/
def userGet (c : MqttCacheManager) (cluster name : String) : Option MqttUser :=
  match alookup cluster c.user_list with
  | some inner => alookup name inner
  | none => none

/-- Observation: the cached connector stored under `(cluster, name)`. -/
def connectorGet (c : MqttCacheManager) (cluster name : String) : Option MQTTConnector :=
  match alookup cluster c.connector_list with
  | some inner => alookup name inner
  | none => none

/-! ### Expiration Sweeper (`message_expire.rs`)

One pass of each sweep loop is embedded as a function over the iterator's
remaining entries (the key/value pairs from the seek position on, in key
order).  The pass returns `none` when the source would panic (the `unwrap`
on a serde decode failure), and otherwise the list of storage actions it
issued together with the entries the iterator had not consumed when the
loop ended.  Storage errors of `save` / `delete_last_will_message` are
logged and ignored by the source, so an action stands for the attempted
write. -/

/-- Rust `str::starts_with`: the pattern is a prefix of the string,
expressed over the underlying character sequences. -/
def strStartsWith (s pat : String) : Bool :=
  pat.data.isPrefixOf s.data

/-- The retained-message deletion decision of `retain_message_expire`:
`let delete = if let Some(expired_at) = value.retain_message_expired_at
\x7b now_second() >= (data.create_time + expired_at) \x7d else \x7b false \x7d`. -/
def retainDelete (now create_time : Nat) (value : MQTTTopic) : Bool :=
  match value.retain_message_expired_at with
  | some expired_at => decide (now ≥ create_time + expired_at)
  | none => false

/-- The mutation performed before re-saving: both retain fields cleared. -/
def clearRetain (value : MQTTTopic) : MQTTTopic :=
  { value with retain_message := none, retain_message_expired_at := none }

/-- One pass of `retain_message_expire` over the iterator entries, given the
cluster topic search key `pfx`.  Emitted actions are the
`topic_storage.save(cluster, topic_name, payload)` calls; the second
component is where the iterator stopped. -/
def retainPass (now : Nat) (pfx : String) :
    List (String × WireVal (StorageDataWrap MQTTTopic)) →
    Option (List (String × MQTTTopic) × List (String × WireVal (StorageDataWrap MQTTTopic)))
  | [] => some ([], [])
  | (k, v) :: rest =>
    if strStartsWith k pfx then
      match v with
      | .malformed => none
      | .ok data =>
        match data.data with
        | .malformed => none
        | .ok value =>
          if value.retain_message.isSome then
            if retainDelete now data.create_time value then
              match retainPass now pfx rest with
              | none => none
              | some (acts, rem) => some ((value.topic_name, clearRetain value) :: acts, rem)
            else retainPass now pfx rest
          else retainPass now pfx rest
    else
      some ([], (k, v) :: rest)

/-- The last-will deletion decision of `last_will_message_expire`, taken
only when `last_will_properties` is present: expiry is
`message_expiry_interval` if present, else `86400 * 30` seconds. -/
def lastWillDelete (now create_time : Nat) (properties : LastWillProperties) : Bool :=
  match properties.message_expiry_interval with
  | some expiry_interval => decide (now ≥ expiry_interval + create_time)
  | none => decide (now ≥ 86400 * 30 + create_time)

/-- One pass of `last_will_message_expire` over the iterator entries, given
the cluster last-will search key `pfx`.  Emitted actions are the client ids
passed to `delete_last_will_message`.  On a key outside the search prefix
the source runs `iter.next()` and then breaks, so the mismatching entry is
consumed before the loop ends. -/
def lastWillPass (now : Nat) (pfx : String) :
    List (String × WireVal (StorageDataWrap LastWillData)) →
    Option (List String × List (String × WireVal (StorageDataWrap LastWillData)))
  | [] => some ([], [])
  | (k, v) :: rest =>
    if strStartsWith k pfx then
      match v with
      | .malformed => none
      | .ok data =>
        match data.data with
        | .malformed => none
        | .ok value =>
          match value.last_will_properties with
          | some properties =>
            if lastWillDelete now data.create_time properties then
              match lastWillPass now pfx rest with
              | none => none
              | some (acts, rem) => some (value.client_id :: acts, rem)
            else lastWillPass now pfx rest
          | none => lastWillPass now pfx rest
    else
      some ([], rest)

/-! ### Share-subscription leader (`service_mqtt.rs`) -/

/-- Modelled from the spec: a stable hash of the group name (the election
algorithm of `core/share_sub.rs` is not among the provided sources). -/
def stableHash (s : String) : Nat :=
  s.data.foldl (fun h c => (h * 31 + c.toNat) % (2 ^ 64)) 5381

/-- Modelled from the spec: `calc_share_sub_leader` of `core/share_sub.rs`
(not among the provided sources) maps a stable hash of the group name onto
the sorted list of live broker ids of the cluster, ties broken by ascending
broker id; with no live broker it fails with `NoBrokerAvailable`. -/
def calc_share_sub_leader (group_name : String) (members : List Nat) : Except String Nat :=
  let ids := members.toFinset.sort (· ≤ ·)
  if ids.isEmpty then
    .error "NoBrokerAvailable"
  else
    .ok (ids.getD (stableHash group_name % ids.length) 0)

/-- The `get_share_sub_leader` gRPC handler: elect a leader for the group
from the cluster's live broker ids; on election failure return the error
(`Status::cancelled`); otherwise join against the node registry `get_node`,
leaving the prost-default reply (zero id, empty strings) when the elected
broker has no node record. -/
def get_share_sub_leader (group_name : String) (members : List Nat)
    (get_node : Nat → Option BrokerNode) : Except String GetShareSubLeaderReply :=
  match calc_share_sub_leader group_name members with
  | .error e => .error e
  | .ok leader_broker =>
    let reply : GetShareSubLeaderReply := { broker_id := 0, broker_addr := "", extend_info := "" }
    match get_node leader_broker with
    | some node =>
      .ok { reply with
              broker_id := leader_broker
              broker_addr := node.node_inner_addr
              extend_info := node.extend }
    | none => .ok reply

/-! ### Association-map lemmas -/

theorem alookup_innerRemove_self {α : Type} (k : String) (m : List (String × α)) :
    alookup k (innerRemove k m) = none := by
  induction m with
  | nil => rfl
  | cons p t ih =>
    rcases p with ⟨a, b⟩
    by_cases h : a = k
    · simpa [innerRemove, h] using ih
    · simpa [innerRemove, h, alookup] using ih

theorem innerRemove_of_alookup_none {α : Type} (k : String) (m : List (String × α))
    (h : alookup k m = none) : innerRemove k m = m := by
  induction m with
  | nil => rfl
  | cons p t ih =>
    rcases p with ⟨a, b⟩
    simp only [alookup] at h
    by_cases hak : a = k
    · rw [if_pos hak] at h
      cases h
    · rw [if_neg hak] at h
      simp [innerRemove, hak, ih h]

theorem alookup_outerSet_self {α : Type} (cluster : String)
    (inner : List (String × α)) (m : List (String × List (String × α)))
    (h : (alookup cluster m).isSome) :
    alookup cluster (outerSet cluster inner m) = some inner := by
  induction m with
  | nil => simp [alookup] at h
  | cons p t ih =>
    rcases p with ⟨c, i⟩
    by_cases hc : c = cluster
    · simp [outerSet, alookup, hc]
    · simp only [alookup, if_neg hc] at h
      simp [outerSet, alookup, hc, ih h]

theorem outerSet_self {α : Type} (cluster : String) (i : List (String × α))
    (m : List (String × List (String × α))) (h : alookup cluster m = some i) :
    outerSet cluster i m = m := by
  induction m with
  | nil => rfl
  | cons p t ih =>
    rcases p with ⟨c, i0⟩
    by_cases hc : c = cluster
    · simp only [alookup, if_pos hc] at h
      obtain rfl : i0 = i := by injection h
      simp [outerSet, hc]
    · simp only [alookup, if_neg hc] at h
      simp [outerSet, hc, ih h]

/-! ### Claim theorems -/

/-- C1: the claim that each cache removal mutates only its own collection is
violated by the code.  Evaluated at the failing input: after
`add_user("c", alice)` then `remove_user("c", "alice")` the user is still
cached; after `add_connector("c", k1)` then `remove_connector("c", "k1")`
the connector is still cached; and `remove_user` deletes a topic that
happens to share the user's name, because both removals operate on
`topic_list`. -/
theorem remove_user_and_connector_mutate_topic_list :
    userGet ((MqttCacheManager.new.add_user "c" ⟨"alice", "pw", false⟩).remove_user
        "c" "alice") "c" "alice" = some ⟨"alice", "pw", false⟩
    ∧ connectorGet ((MqttCacheManager.new.add_connector "c" ⟨"k1", "cfg"⟩).remove_connector
        "c" "k1") "c" "k1" = some ⟨"k1", "cfg"⟩
    ∧ topicGet (((MqttCacheManager.new.add_topic "c"
          ⟨"id9", "alice", none, none⟩).add_user "c"
          ⟨"alice", "pw", false⟩).remove_user "c" "alice") "c" "alice" = none := by
  decide

/-- C8: `add_topic` then `remove_topic` of the same name leaves the
cluster's topic collection without that name, and `remove_topic` of an
absent cluster or absent topic name is a no-op on the whole cache. -/
theorem add_then_remove_topic (c : MqttCacheManager) (cluster name : String) (t : MqttTopic) :
    topicGet ((c.add_topic cluster t).remove_topic cluster t.topic_name) cluster
        t.topic_name = none
    ∧ ((∀ inner, alookup cluster c.topic_list = some inner → alookup name inner = none) →
        c.remove_topic cluster name = c) := by
  constructor
  · unfold MqttCacheManager.add_topic MqttCacheManager.remove_topic topicGet outerAdd outerRemove
    cases hm : alookup cluster c.topic_list with
    | some inner =>
      simp only [hm]
      have h1 : alookup cluster
          (outerSet cluster (innerInsert t.topic_name t inner) c.topic_list)
            = some (innerInsert t.topic_name t inner) :=
        alookup_outerSet_self _ _ _ (by simp [hm])
      simp only [h1]
      have h2 : alookup cluster
          (outerSet cluster (innerRemove t.topic_name (innerInsert t.topic_name t inner))
            (outerSet cluster (innerInsert t.topic_name t inner) c.topic_list))
          = some (innerRemove t.topic_name (innerInsert t.topic_name t inner)) :=
        alookup_outerSet_self _ _ _ (by simp [h1])
      simp [h2, alookup_innerRemove_self]
    | none =>
      simp only [hm]
      have h1 : alookup cluster ((cluster, [(t.topic_name, t)]) :: c.topic_list)
          = some [(t.topic_name, t)] := by
        simp [alookup]
      simp only [h1]
      have h2 : alookup cluster
          (outerSet cluster (innerRemove t.topic_name [(t.topic_name, t)])
            ((cluster, [(t.topic_name, t)]) :: c.topic_list))
          = some (innerRemove t.topic_name [(t.topic_name, t)]) :=
        alookup_outerSet_self _ _ _ (by simp [h1])
      simp [h2, alookup_innerRemove_self]
  · intro habs
    unfold MqttCacheManager.remove_topic outerRemove
    cases hm : alookup cluster c.topic_list with
    | some inner =>
      have hnone : alookup name inner = none := habs inner hm
      dsimp only
      rw [innerRemove_of_alookup_none _ _ hnone, outerSet_self _ _ _ hm]
    | none => rfl

/-- C9: `get_expire_last_wills` returns exactly the cluster's stored entries
passing `is_send_last_will` at call time, and is total: an unknown cluster
yields the empty list. -/
theorem get_expire_last_wills_spec (now : Nat) (c : MqttCacheManager)
    (cluster : String) (e : ExpireLastWill) :
    (e ∈ c.get_expire_last_wills now cluster ↔
      ((∃ k, (k, e) ∈ (alookup cluster c.expire_last_wills).getD [])
        ∧ is_send_last_will now e = true))
    ∧ (alookup cluster c.expire_last_wills = none →
        c.get_expire_last_wills now cluster = []) := by
  unfold MqttCacheManager.get_expire_last_wills
  cases hm : alookup cluster c.expire_last_wills with
  | some l =>
    refine ⟨?_, by intro h; cases h⟩
    simp only [Option.getD_some, List.mem_map, List.mem_filter]
    constructor
    · rintro ⟨⟨k, v⟩, ⟨hmem, hsend⟩, hv⟩
      subst hv
      exact ⟨⟨k, hmem⟩, hsend⟩
    · rintro ⟨⟨k, hmem⟩, hsend⟩
      exact ⟨(k, e), ⟨hmem, hsend⟩, rfl⟩
  | none =>
    simp

/-- C8 witness: the theorem instantiated at a concrete cache, with the no-op
premise discharged on the empty cache. -/
theorem add_then_remove_topic_witness :
    topicGet ((MqttCacheManager.new.add_topic "c"
        ⟨"id1", "t1", none, none⟩).remove_topic "c" "t1") "c" "t1" = none
    ∧ MqttCacheManager.new.remove_topic "c" "t1" = MqttCacheManager.new :=
  ⟨(add_then_remove_topic MqttCacheManager.new "c" "t1" ⟨"id1", "t1", none, none⟩).1,
   (add_then_remove_topic MqttCacheManager.new "c" "t1" ⟨"id1", "t1", none, none⟩).2
     (by intro inner h; cases h)⟩

/-- C9 witness: the totality direction applied to the empty cache. -/
theorem get_expire_last_wills_spec_witness :
    MqttCacheManager.new.get_expire_last_wills 7 "c" = [] :=
  (get_expire_last_wills_spec 7 MqttCacheManager.new "c" ⟨"c", "x", 0⟩).2 rfl

/-- C2: the claim that a malformed entry is logged and skipped is violated
by the code: both sweeps `unwrap` the serde decode result, so a malformed
envelope (first conjunct) or a malformed payload inside a well-formed
envelope (second conjunct) panics and aborts the pass (`none`), and the
well-formed entry after it is never visited. -/
theorem decode_failure_aborts_sweep_pass :
    retainPass 5 "mp" [("mpa", WireVal.malformed),
        ("mpb", WireVal.ok ⟨WireVal.ok ⟨"i", "t", none, none⟩, 0⟩)] = none
    ∧ lastWillPass 5 "mp" [("mpa", WireVal.ok ⟨WireVal.malformed, 0⟩),
        ("mpb", WireVal.ok ⟨WireVal.ok ⟨"c9", none, none⟩, 0⟩)] = none :=
  ⟨by decide, by decide⟩

/-- C7: the claim that both sweeps stop at the first key outside the search
prefix without advancing past it is violated by the last-will sweep, which
runs `iter.next()` before breaking.  At a boundary key `"q"` (not an
extension of the search key `"p"`), the retained-message pass leaves the
iterator on `"q"`, while the last-will pass has consumed it. -/
theorem last_will_pass_consumes_boundary_key :
    retainPass 0 "p" [("q", WireVal.malformed), ("q2", WireVal.malformed)]
      = some ([], [("q", WireVal.malformed), ("q2", WireVal.malformed)])
    ∧ lastWillPass 0 "p" [("q", WireVal.ok ⟨WireVal.malformed, 0⟩),
        ("q2", WireVal.ok ⟨WireVal.malformed, 0⟩)]
      = some ([], [("q2", WireVal.ok ⟨WireVal.malformed, 0⟩)]) :=
  ⟨by decide, by decide⟩

/-- C3 counterexample: a last-will record carrying no `last_will_properties`
under a matching key, with `create_time = 0`, visited at
`now = 2592000` (30 days later, so `now ≥ create_time + 2592000`): the claim
requires `delete_last_will_message` to be called, but the pass issues no
delete at all. -/
theorem last_will_without_properties_never_deleted :
    lastWillPass 2592000 "p" [("pc", WireVal.ok ⟨WireVal.ok ⟨"c1", none, none⟩, 0⟩)]
      = some ([], [])
    ∧ 0 + 2592000 ≤ 2592000 :=
  ⟨by decide, by decide⟩

/-- Unfolding lemma: one loop iteration of the retained-message sweep on an
in-prefix key whose envelope and payload decode. -/
theorem retainPass_cons_ok (now : Nat) (pfx k : String) (env : StorageDataWrap MQTTTopic)
    (t : MQTTTopic) (rest : List (String × WireVal (StorageDataWrap MQTTTopic)))
    (hk : strStartsWith k pfx = true) (hd : env.data = WireVal.ok t) :
    retainPass now pfx ((k, WireVal.ok env) :: rest) =
      if t.retain_message.isSome then
        if retainDelete now env.create_time t then
          match retainPass now pfx rest with
          | none => none
          | some (acts, rem) => some ((t.topic_name, clearRetain t) :: acts, rem)
        else retainPass now pfx rest
      else retainPass now pfx rest := by
  simp only [retainPass, hk, hd, if_true]

/-- Unfolding lemma: one loop iteration of the last-will sweep on an
in-prefix key whose envelope and payload decode. -/
theorem lastWillPass_cons_ok (now : Nat) (pfx k : String)
    (env : StorageDataWrap LastWillData) (w : LastWillData)
    (rest : List (String × WireVal (StorageDataWrap LastWillData)))
    (hk : strStartsWith k pfx = true) (hd : env.data = WireVal.ok w) :
    lastWillPass now pfx ((k, WireVal.ok env) :: rest) =
      match w.last_will_properties with
      | some properties =>
        if lastWillDelete now env.create_time properties then
          match lastWillPass now pfx rest with
          | none => none
          | some (acts, rem) => some (w.client_id :: acts, rem)
        else lastWillPass now pfx rest
      | none => lastWillPass now pfx rest := by
  simp only [lastWillPass, hk, hd, if_true]

/-- C4: a visited, decodable topic record is cleared and re-saved exactly
when its retained message is present, its expiry is set, and
`now ≥ create_time + expired_at` with the envelope's `create_time`; the
boundary case is included in the first disjunct (`≤`). -/
theorem retain_clear_exact_condition (now : Nat) (pfx k : String)
    (env : StorageDataWrap MQTTTopic) (t : MQTTTopic)
    (rest : List (String × WireVal (StorageDataWrap MQTTTopic)))
    (hk : strStartsWith k pfx = true) (hd : env.data = WireVal.ok t) :
    ((∃ m, t.retain_message = some m) ∧
       (∃ ea, t.retain_message_expired_at = some ea ∧ env.create_time + ea ≤ now) →
      retainPass now pfx ((k, WireVal.ok env) :: rest)
        = (retainPass now pfx rest).map
            (fun r => ((t.topic_name, clearRetain t) :: r.1, r.2)))
    ∧ (¬ ((∃ m, t.retain_message = some m) ∧
           (∃ ea, t.retain_message_expired_at = some ea ∧ env.create_time + ea ≤ now)) →
      retainPass now pfx ((k, WireVal.ok env) :: rest) = retainPass now pfx rest) := by
  rw [retainPass_cons_ok now pfx k env t rest hk hd]
  constructor
  · rintro ⟨⟨m, hm⟩, ea, hea, hle⟩
    have h1 : t.retain_message.isSome = true := by rw [hm]; rfl
    have h2 : retainDelete now env.create_time t = true := by
      unfold retainDelete
      rw [hea]
      exact decide_eq_true (by omega)
    rw [if_pos h1, if_pos h2]
    cases hr : retainPass now pfx rest with
    | none => rfl
    | some r => rcases r with ⟨acts, rem⟩; rfl
  · intro hneg
    by_cases h1 : t.retain_message.isSome = true
    · by_cases h2 : retainDelete now env.create_time t = true
      · exfalso
        apply hneg
        refine ⟨⟨t.retain_message.get h1, by simp⟩, ?_⟩
        unfold retainDelete at h2
        cases hea : t.retain_message_expired_at with
        | none => rw [hea] at h2; cases h2
        | some ea =>
          rw [hea] at h2
          have h3 := of_decide_eq_true h2
          exact ⟨ea, rfl, by omega⟩
      · rw [if_pos h1, if_neg h2]
    · rw [if_neg h1]

/-- C4 witness: a topic whose retained message expires exactly at the visit
time is cleared and re-saved; hypotheses and the resulting pass are
evaluated on concrete data. -/
theorem retain_clear_exact_condition_witness :
    retainPass 5 "p" [("pt", WireVal.ok ⟨WireVal.ok ⟨"id1", "t1", some [1], some 5⟩, 0⟩)]
      = some ([("t1", ⟨"id1", "t1", none, none⟩)], []) := by
  have h := (retain_clear_exact_condition 5 "p" "pt"
      ⟨WireVal.ok ⟨"id1", "t1", some [1], some 5⟩, 0⟩ ⟨"id1", "t1", some [1], some 5⟩ []
      (by decide) rfl).1 ⟨⟨[1], rfl⟩, 5, rfl, by decide⟩
  rw [h]
  decide

/-- C3 as amended: for a visited, decodable last-will record that carries
`last_will_properties`, the expiry is `message_expiry_interval` when
present and 2,592,000 seconds otherwise, and `delete_last_will_message` is
called exactly when `now ≥ create_time + expiry`; a record without
`last_will_properties` is never deleted by the sweep. -/
theorem last_will_delete_exact_condition (now : Nat) (pfx k : String)
    (env : StorageDataWrap LastWillData) (w : LastWillData)
    (rest : List (String × WireVal (StorageDataWrap LastWillData)))
    (hk : strStartsWith k pfx = true) (hd : env.data = WireVal.ok w) :
    (∀ p, w.last_will_properties = some p →
      ((env.create_time + (p.message_expiry_interval.getD (86400 * 30)) ≤ now →
          lastWillPass now pfx ((k, WireVal.ok env) :: rest)
            = (lastWillPass now pfx rest).map (fun r => (w.client_id :: r.1, r.2)))
       ∧ (now < env.create_time + (p.message_expiry_interval.getD (86400 * 30)) →
          lastWillPass now pfx ((k, WireVal.ok env) :: rest)
            = lastWillPass now pfx rest)))
    ∧ (w.last_will_properties = none →
        lastWillPass now pfx ((k, WireVal.ok env) :: rest)
          = lastWillPass now pfx rest) := by
  rw [lastWillPass_cons_ok now pfx k env w rest hk hd]
  constructor
  · intro p hp
    rw [hp]
    dsimp only
    constructor
    · intro hle
      have h2 : lastWillDelete now env.create_time p = true := by
        unfold lastWillDelete
        cases he : p.message_expiry_interval with
        | some e =>
          rw [he] at hle
          simp only [Option.getD_some] at hle
          exact decide_eq_true (by omega)
        | none =>
          rw [he] at hle
          simp only [Option.getD_none] at hle
          exact decide_eq_true (by omega)
      rw [if_pos h2]
      cases hr : lastWillPass now pfx rest with
      | none => rfl
      | some r => rcases r with ⟨acts, rem⟩; rfl
    · intro hlt
      have h2 : lastWillDelete now env.create_time p = false := by
        unfold lastWillDelete
        cases he : p.message_expiry_interval with
        | some e =>
          rw [he] at hlt
          simp only [Option.getD_some] at hlt
          exact decide_eq_false (by omega)
        | none =>
          rw [he] at hlt
          simp only [Option.getD_none] at hlt
          exact decide_eq_false (by omega)
      rw [if_neg (by simp [h2])]
  · intro hp
    rw [hp]

/-- C3 witness: a last-will record with a 3-second expiry interval visited
exactly at the boundary is deleted; one with no interval is kept before 30
days have elapsed. -/
theorem last_will_delete_exact_condition_witness :
    lastWillPass 13 "p" [("pc", WireVal.ok ⟨WireVal.ok ⟨"c1", none, some ⟨some 3⟩⟩, 10⟩)]
      = some (["c1"], [])
    ∧ lastWillPass 13 "p" [("pc", WireVal.ok ⟨WireVal.ok ⟨"c1", none, some ⟨none⟩⟩, 10⟩)]
      = some ([], []) := by
  constructor
  · have h := ((last_will_delete_exact_condition 13 "p" "pc"
        ⟨WireVal.ok ⟨"c1", none, some ⟨some 3⟩⟩, 10⟩ ⟨"c1", none, some ⟨some 3⟩⟩ []
        (by decide) rfl).1 ⟨some 3⟩ rfl).1 (by decide)
    rw [h]
    decide
  · have h := ((last_will_delete_exact_condition 13 "p" "pc"
        ⟨WireVal.ok ⟨"c1", none, some ⟨none⟩⟩, 10⟩ ⟨"c1", none, some ⟨none⟩⟩ []
        (by decide) rfl).1 ⟨none⟩ rfl).2 (by decide)
    rw [h]
    decide

/-- C10: every storage action of a retained-message pass is a re-save, of a
topic decoded from a visited entry, under that topic's own name, preserving
`topic_name` and `topic_id` and clearing exactly the two retain fields; the
pass never issues a delete. -/
theorem retain_sweep_frame (now : Nat) (pfx : String)
    (entries : List (String × WireVal (StorageDataWrap MQTTTopic)))
    (acts : List (String × MQTTTopic))
    (rem : List (String × WireVal (StorageDataWrap MQTTTopic)))
    (hpass : retainPass now pfx entries = some (acts, rem)) :
    ∀ nm u, (nm, u) ∈ acts →
      ∃ k env t, (k, WireVal.ok env) ∈ entries ∧ env.data = WireVal.ok t ∧
        nm = t.topic_name ∧ u.topic_name = t.topic_name ∧ u.topic_id = t.topic_id ∧
        u.retain_message = none ∧ u.retain_message_expired_at = none := by
  induction entries generalizing acts rem with
  | nil =>
    simp only [retainPass, Option.some.injEq, Prod.mk.injEq] at hpass
    obtain ⟨h1, h2⟩ := hpass
    subst h1
    intro nm u hmem
    cases hmem
  | cons p prest ih =>
    rcases p with ⟨k, v⟩
    simp only [retainPass] at hpass
    by_cases hk : strStartsWith k pfx = true
    · rw [if_pos hk] at hpass
      cases v with
      | malformed => cases hpass
      | ok data =>
        dsimp only at hpass
        cases hdd : data.data with
        | malformed => rw [hdd] at hpass; cases hpass
        | ok value =>
          rw [hdd] at hpass
          dsimp only at hpass
          by_cases h1 : value.retain_message.isSome = true
          · rw [if_pos h1] at hpass
            by_cases h2 : retainDelete now data.create_time value = true
            · rw [if_pos h2] at hpass
              cases hr : retainPass now pfx prest with
              | none => rw [hr] at hpass; cases hpass
              | some r =>
                rcases r with ⟨acts0, rem0⟩
                rw [hr] at hpass
                simp only [Option.some.injEq, Prod.mk.injEq] at hpass
                obtain ⟨h3, h4⟩ := hpass
                subst h3
                intro nm u hmem
                rcases List.mem_cons.mp hmem with hhead | htail
                · obtain ⟨hnm, hu⟩ := Prod.mk.injEq .. ▸ hhead
                  refine ⟨k, data, value, List.mem_cons_self _ _, hdd, ?_⟩
                  subst hnm
                  subst hu
                  exact ⟨rfl, rfl, rfl, rfl, rfl⟩
                · obtain ⟨k2, env2, t2, hm2, hrest2⟩ := ih acts0 rem0 hr nm u htail
                  exact ⟨k2, env2, t2, List.mem_cons_of_mem _ hm2, hrest2⟩
            · rw [if_neg h2] at hpass
              intro nm u hmem
              obtain ⟨k2, env2, t2, hm2, hrest2⟩ := ih acts rem hpass nm u hmem
              exact ⟨k2, env2, t2, List.mem_cons_of_mem _ hm2, hrest2⟩
          · rw [if_neg h1] at hpass
            intro nm u hmem
            obtain ⟨k2, env2, t2, hm2, hrest2⟩ := ih acts rem hpass nm u hmem
            exact ⟨k2, env2, t2, List.mem_cons_of_mem _ hm2, hrest2⟩
    · rw [if_neg hk] at hpass
      simp only [Option.some.injEq, Prod.mk.injEq] at hpass
      obtain ⟨h1, h2⟩ := hpass
      subst h1
      intro nm u hmem
      cases hmem

/-- C10 witness: on a single expired entry the emitted action re-saves the
topic with only the retain fields cleared. -/
theorem retain_sweep_frame_witness :
    ∃ k env t,
      (k, WireVal.ok env) ∈
          [("pt", WireVal.ok (StorageDataWrap.mk (WireVal.ok
              (MQTTTopic.mk "id1" "t1" (some [1]) (some 0))) 0))]
        ∧ env.data = WireVal.ok t
        ∧ "t1" = t.topic_name
        ∧ (MQTTTopic.mk "id1" "t1" none none).topic_name = t.topic_name
        ∧ (MQTTTopic.mk "id1" "t1" none none).topic_id = t.topic_id
        ∧ (MQTTTopic.mk "id1" "t1" none none).retain_message = none
        ∧ (MQTTTopic.mk "id1" "t1" none none).retain_message_expired_at = none :=
  retain_sweep_frame 5 "p"
    [("pt", WireVal.ok (StorageDataWrap.mk (WireVal.ok
        (MQTTTopic.mk "id1" "t1" (some [1]) (some 0))) 0))]
    [("t1", MQTTTopic.mk "id1" "t1" none none)] []
    (by decide) "t1" (MQTTTopic.mk "id1" "t1" none none) (by decide)

/-- C5: the share-subscription leader election is a deterministic function
of the group name and the set of live broker ids: two runs on the same
inputs agree, and permuting the order in which the member ids are supplied
does not change the result. -/
theorem calc_share_sub_leader_deterministic (group : String) (m1 m2 : List Nat)
    (h : m1.Perm m2) :
    calc_share_sub_leader group m1 = calc_share_sub_leader group m1
    ∧ calc_share_sub_leader group m1 = calc_share_sub_leader group m2 := by
  have hf : m1.toFinset = m2.toFinset := by
    ext a
    simp [List.mem_toFinset, h.mem_iff]
  exact ⟨rfl, by simp [calc_share_sub_leader, hf]⟩

/-- C5 witness: the election for group `g1` agrees across the member
orderings `[7, 3, 11]` and `[11, 3, 7]`. -/
theorem calc_share_sub_leader_deterministic_witness :
    calc_share_sub_leader "g1" [7, 3, 11] = calc_share_sub_leader "g1" [7, 3, 11]
    ∧ calc_share_sub_leader "g1" [7, 3, 11] = calc_share_sub_leader "g1" [11, 3, 7] :=
  calc_share_sub_leader_deterministic "g1" [7, 3, 11] [11, 3, 7] (by decide)

/-- C6: when the election succeeds, the `get_share_sub_leader` reply is the
prost default (`broker_id = 0`, empty address and extend info) if the
elected broker has no node record, and otherwise carries the elected id,
that node's inner address and its extend info. -/
theorem get_share_sub_leader_reply (group : String) (members : List Nat)
    (get_node : Nat → Option BrokerNode) (leader : Nat)
    (h : calc_share_sub_leader group members = Except.ok leader) :
    (get_node leader = none →
      get_share_sub_leader group members get_node
        = Except.ok ⟨0, "", ""⟩)
    ∧ (∀ n, get_node leader = some n →
      get_share_sub_leader group members get_node
        = Except.ok ⟨leader, n.node_inner_addr, n.extend⟩) := by
  constructor
  · intro hn
    simp [get_share_sub_leader, h, hn]
  · intro n hn
    simp [get_share_sub_leader, h, hn]

/-- C6 witness: with the single live broker 5, a missing node record yields
the zeroed reply and a present record yields the joined reply. -/
theorem get_share_sub_leader_reply_witness :
    get_share_sub_leader "g" [5] (fun _ => none) = Except.ok ⟨0, "", ""⟩
    ∧ get_share_sub_leader "g" [5] (fun _ => some ⟨"addr1", "ext1"⟩)
        = Except.ok ⟨5, "addr1", "ext1"⟩ := by
  have hcalc : calc_share_sub_leader "g" [5] = Except.ok 5 := by
    simp [calc_share_sub_leader, Nat.mod_one, List.getD]
  exact ⟨(get_share_sub_leader_reply "g" [5] (fun _ => none) 5 hcalc).1 rfl,
         (get_share_sub_leader_reply "g" [5] (fun _ => some ⟨"addr1", "ext1"⟩) 5 hcalc).2
           ⟨"addr1", "ext1"⟩ rfl⟩
